import Mathlib

/- Formal model of the conversation/session loop of gpt_bot.py:
   the text chunker split_long_string, the ChatGPT exchange
   send_message_to_chatgpt with its tenacity retry decorator, the
   conversation history list, the handshake and periodic loop inside
   GptBot.send_periodic_message, and the hour-aligned scheduler
   arithmetic.  Timestamps are modelled in whole microseconds, which is
   exact for every quantity the Python code manipulates. -/

namespace GptBot

/-- The space character, code point 32. -/
def sp : Char := Char.ofNat 32

/-- Discord max message length, MAX_MESSAGE_LENGTH in gpt_bot.py. -/
def MAX_MESSAGE_LENGTH : Nat := 2000

/-- Python text.split(" "): cut a character list at every space, keeping
    empty pieces, exactly as Python str.split does with an explicit
    separator (so the empty text yields one empty word). -/
def splitSp : List Char → List (List Char)
  | [] => [[]]
  | c :: cs =>
    if c = sp then [] :: splitSp cs
    else
      match splitSp cs with
      | [] => [[c]]
      | w :: ws => (c :: w) :: ws

/-- The whitespace set of Python str.isspace, which is the set of
    characters Python str.strip() removes: U+0009 to U+000D, U+001C to
    U+001F, the space, U+0085, U+00A0, U+1680, U+2000 to U+200A, U+2028,
    U+2029, U+202F, U+205F and U+3000. -/
def pyIsSpace (c : Char) : Bool :=
  (9 ≤ c.toNat && c.toNat ≤ 13) || (28 ≤ c.toNat && c.toNat ≤ 31) || c.toNat == 32
    || c.toNat == 133 || c.toNat == 160 || c.toNat == 5760
    || (8192 ≤ c.toNat && c.toNat ≤ 8202) || c.toNat == 8232 || c.toNat == 8233
    || c.toNat == 8239 || c.toNat == 8287 || c.toNat == 12288

/-- Python str.strip(): drop Python whitespace from both ends of the
    text. -/
def stripChars (l : List Char) : List Char :=
  ((l.dropWhile pyIsSpace).reverse.dropWhile pyIsSpace).reverse

/-- One iteration of the loop body of split_long_string: either extend
    current_line with a space and the next word, or flush
    current_line.strip() into the result and restart from the word. -/
def chunkStep (max_length : Nat) (acc : List (List Char) × List Char) (word : List Char) :
    List (List Char) × List Char :=
  if (acc.2 ++ sp :: word).length ≤ max_length then (acc.1, acc.2 ++ sp :: word)
  else (acc.1 ++ [stripChars acc.2], word)

/-- The flush after the loop of split_long_string: a non-empty
    current_line is stripped and appended. -/
def slsFinish (acc : List (List Char) × List Char) : List (List Char) :=
  if acc.2 = [] then acc.1 else acc.1 ++ [stripChars acc.2]

/-- split_long_string on character lists: split at spaces, fold the loop
    body over the words starting from an empty result and an empty
    current_line, then flush. -/
def slsCore (cs : List Char) (max_length : Nat) : List (List Char) :=
  slsFinish ((splitSp cs).foldl (chunkStep max_length) ([], []))

/-- split_long_string(text, max_length) from gpt_bot.py, lines 18-36. -/
def split_long_string (text : String) (max_length : Nat) : List String :=
  (slsCore text.data max_length).map String.mk

/-- Joining a list of character words with single spaces; the words of the
    chunking round trip are stated through it. -/
def joinChars : List (List Char) → List Char
  | [] => []
  | [w] => w
  | w :: ws => w ++ sp :: joinChars ws

/-- Joining a list of strings with single spaces. -/
def joinSpace (l : List String) : String := String.mk (joinChars (l.map String.data))

/-- Conversation roles used by gpt_bot.py: it appends user turns and
    stores model replies under the system role. -/
inductive Role where
  | user
  | system
  deriving DecidableEq

/-- One entry of the conversation history, the Python dict with keys
    role and content. -/
structure Msg where
  role : Role
  content : String
  deriving DecidableEq

/-- Outcome oracle for the remote endpoint: attempt number (1-based) to
    either a reply or a transport failure. -/
abbrev ApiOracle := Nat → Except Unit String

/-- call_openai_chat_api under the tenacity decorator with
    stop_after_attempt(3): attempts 1, 2, 3 in order, stopping at the
    first success; returns the number of attempts made and the outcome of
    the last attempt made. -/
def call_openai_chat_api (api : ApiOracle) : Nat × Except Unit String :=
  match api 1 with
  | Except.ok r => (1, Except.ok r)
  | Except.error _ =>
    match api 2 with
    | Except.ok r => (2, Except.ok r)
    | Except.error _ => (3, api 3)

/-- send_message_to_chatgpt, gpt_bot.py lines 39-60: append the user turn
    to the shared history, call the endpoint with retry; on success append
    the reply as a system turn and return it, on exhausted retries the
    failure escapes after only the user turn was appended. -/
def send_message_to_chatgpt (messages : List Msg) (message : String) (api : ApiOracle) :
    List Msg × Except Unit String :=
  match (call_openai_chat_api api).2 with
  | Except.ok r => (messages ++ [⟨Role.user, message⟩] ++ [⟨Role.system, r⟩], Except.ok r)
  | Except.error e => (messages ++ [⟨Role.user, message⟩], Except.error e)

/-- Python str.lower(), character by character. -/
def pyLower (s : String) : String := String.mk (s.data.map Char.toLower)

/-- Whether the pattern (second argument) is an initial segment of the
    text (first argument). -/
def hasLead : List Char → List Char → Bool
  | _, [] => true
  | [], _ :: _ => false
  | c :: cs, p :: ps => c == p && hasLead cs ps

/-- Python substring containment: the pattern occurs somewhere in the
    text. -/
def occursIn (pat : List Char) : List Char → Bool
  | [] => pat.isEmpty
  | c :: cs => hasLead (c :: cs) pat || occursIn pat cs

/-- The filler test of the periodic loop, gpt_bot.py line 113:
    "nothing to do now" in gpt_response.lower(). -/
def containsMarker (r : String) : Bool :=
  occursIn ("nothing to do now".data) (pyLower r).data

/-- GptBot._retract_last_n_message, lines 78-82: Python
    self.messages = self.messages[:-n]. -/
def retract_last_n_message (n : Nat) (messages : List Msg) : List Msg :=
  if n = 0 then [] else messages.take (messages.length - n)

/-- The handshake phase of GptBot.send_periodic_message, lines 84-99:
    send the wrapped task prompt and the generating notice, run the task
    prompt through send_message_to_chatgpt, deliver the reply (chunked
    when it exceeds MAX_MESSAGE_LENGTH), then run the loop prompt with the
    reply discarded.  Returns the final history and the messages sent to
    the user, in order.  A failing completion call raises, ending the
    task with only the messages sent so far. -/
def handshake (task_prompt loop_prompt : String) (messages : List Msg)
    (api1 api2 : ApiOracle) : List Msg × List String :=
  let sends0 := ["Your initial instruction to ChatGPT: ```" ++ task_prompt ++ "```",
                 "ChatGPT is now generating the plan for you..."]
  match send_message_to_chatgpt messages task_prompt api1 with
  | (h1, Except.error _) => (h1, sends0)
  | (h1, Except.ok r) =>
      ((send_message_to_chatgpt h1 loop_prompt api2).1,
        sends0 ++ (if r.length > MAX_MESSAGE_LENGTH
                   then split_long_string r MAX_MESSAGE_LENGTH
                   else [r]))

/-- One wake-up of the periodic loop, gpt_bot.py lines 110-117: send the
    scheduler marker through send_message_to_chatgpt; when the reply
    carries the filler marker, retract the last two history entries and
    deliver nothing, otherwise deliver the reply unchunked.  Returns the
    final history and the messages sent to the user. -/
def periodicTick (messages : List Msg) (timeStr : String) (api : ApiOracle) :
    List Msg × List String :=
  match send_message_to_chatgpt messages ("SCHEDULER: " ++ timeStr) api with
  | (h1, Except.error _) => (h1, [])
  | (h1, Except.ok r) =>
      if containsMarker r then (retract_last_n_message 2 h1, []) else (h1, [r])

/-- now.microsecond for a timestamp n in microseconds. -/
def microsecond (n : Nat) : Nat := n % 1000000

/-- now.second for a timestamp n in microseconds. -/
def second (n : Nat) : Nat := n / 1000000 % 60

/-- now.minute for a timestamp n in microseconds. -/
def minute (n : Nat) : Nat := n / 60000000 % 60

/-- now.hour for a timestamp n in microseconds. -/
def hour (n : Nat) : Nat := n / 3600000000 % 24

/-- seconds_till_next_hour of gpt_bot.py line 103, scaled to
    microseconds: 3600 - minute*60 - second - microsecond/1e6, times 1e6. -/
def seconds_till_next_hour_us (n : Nat) : Int :=
  3600000000 - (minute n : Int) * 60000000 - (second n : Int) * 1000000 - (microsecond n : Int)

/-- more_hours of gpt_bot.py line 106: (now.hour + 1) % cadence. -/
def more_hours (n : Nat) (cadence : Nat) : Nat := (hour n + 1) % cadence

/-- seconds_till_next_run of gpt_bot.py line 107, scaled to
    microseconds. -/
def seconds_till_next_run_us (n : Nat) (cadence : Nat) : Int :=
  seconds_till_next_hour_us n + (more_hours n cadence : Int) * 3600000000

/-- The instant at which the sleep ends: now plus the computed delay. -/
def tickInstantUs (n : Nat) (cadence : Nat) : Int :=
  (n : Int) + seconds_till_next_run_us n cadence

/-- Hour of day of the tick instant. -/
def tickHourOfDay (n : Nat) (cadence : Nat) : Int :=
  tickInstantUs n cadence / 3600000000 % 24

/-- The next wall-clock hour boundary after (or at the end of) the hour
    containing n, in microseconds. -/
def next_hour_boundary_us (n : Nat) : Nat := (n / 3600000000 + 1) * 3600000000

/-- An endpoint that answers r on every attempt. -/
def okApi (r : String) : ApiOracle := fun _ => Except.ok r

/-- An endpoint that fails on every attempt. -/
def failApi : ApiOracle := fun _ => Except.error ()

/-- An endpoint that fails on attempts 1 and 2 and succeeds on attempt 3. -/
def retryApi : ApiOracle := fun k => if k ≤ 2 then Except.error () else Except.ok "done"

/-- 501 short words; joined with spaces they form a 2003-character reply. -/
def longWords : List String := List.replicate 501 "abc"

/-- A model reply longer than MAX_MESSAGE_LENGTH made of short
    space-separated words. -/
def longReply : String := joinSpace longWords

/- ------------------------------------------------------------------ -/
/- Helper lemmas.                                                      -/
/- ------------------------------------------------------------------ -/

lemma send_ok (messages : List Msg) (m : String) (api : ApiOracle) (r : String)
    (hok : (call_openai_chat_api api).2 = Except.ok r) :
    send_message_to_chatgpt messages m api =
      (messages ++ [⟨Role.user, m⟩, ⟨Role.system, r⟩], Except.ok r) := by
  unfold send_message_to_chatgpt
  rw [hok]
  simp

lemma send_err (messages : List Msg) (m : String) (api : ApiOracle)
    (herr : (call_openai_chat_api api).2 = Except.error ()) :
    send_message_to_chatgpt messages m api =
      (messages ++ [⟨Role.user, m⟩], Except.error ()) := by
  unfold send_message_to_chatgpt
  rw [herr]

lemma call_fail (api : ApiOracle) (h1 : api 1 = Except.error ())
    (h2 : api 2 = Except.error ()) (h3 : api 3 = Except.error ()) :
    (call_openai_chat_api api).2 = Except.error () := by
  simp [call_openai_chat_api, h1, h2, h3]

lemma take_length_append (l t : List Msg) : (l ++ t).take l.length = l :=
  List.take_left l t

lemma retract_two (l : List Msg) (a b : Msg) :
    retract_last_n_message 2 (l ++ [a, b]) = l := by
  unfold retract_last_n_message
  rw [if_neg (by decide)]
  have h : (l ++ [a, b]).length - 2 = l.length := by simp
  rw [h]
  exact take_length_append l [a, b]

/- ------------------------------------------------------------------ -/
/- Claims.                                                             -/
/- ------------------------------------------------------------------ -/

/-- Claim C4: every call to send_message_to_chatgpt that returns a reply
    appends exactly two entries to the shared history, first the
    user-role message with the new content and then the system-role
    message with the reply, leaving every earlier entry unchanged, also
    when the success only comes after retries. -/
theorem c4_history_append (messages : List Msg) (m : String) (api : ApiOracle) (r : String)
    (hok : (send_message_to_chatgpt messages m api).2 = Except.ok r) :
    (send_message_to_chatgpt messages m api).1 =
      messages ++ [⟨Role.user, m⟩, ⟨Role.system, r⟩] := by
  rcases hc : (call_openai_chat_api api).2 with e | r0
  · cases e
    rw [send_err messages m api hc] at hok
    simp at hok
  · have hs := send_ok messages m api r0 hc
    rw [hs] at hok
    simp at hok
    rw [hs, hok]

/-- Witness for C4: an endpoint failing twice then succeeding appends
    exactly the user turn and the system reply. -/
theorem c4_history_append_witness :
    (send_message_to_chatgpt [] "q" retryApi).1 =
      ([] : List Msg) ++ [⟨Role.user, "q"⟩, ⟨Role.system, "done"⟩] :=
  c4_history_append [] "q" retryApi "done" rfl

/-- Claim C6: the retry wrapper makes at most 3 attempts, and the caller
    of send_message_to_chatgpt observes an error exactly when all three
    attempts fail; when any attempt succeeds, no error is raised. -/
theorem c6_retry_exhaustion (messages : List Msg) (m : String) (api : ApiOracle) :
    (call_openai_chat_api api).1 ≤ 3
    ∧ ((send_message_to_chatgpt messages m api).2 = Except.error () ↔
        api 1 = Except.error () ∧ api 2 = Except.error () ∧ api 3 = Except.error ()) := by
  rcases h1 : api 1 with e1 | r1
  · cases e1
    rcases h2 : api 2 with e2 | r2
    · cases e2
      rcases h3 : api 3 with e3 | r3
      · cases e3
        constructor
        · simp [call_openai_chat_api, h1, h2, h3]
        · simp [send_message_to_chatgpt, call_openai_chat_api, h1, h2, h3]
      · constructor
        · simp [call_openai_chat_api, h1, h2, h3]
        · simp [send_message_to_chatgpt, call_openai_chat_api, h1, h2, h3]
    · constructor
      · simp [call_openai_chat_api, h1, h2]
      · simp [send_message_to_chatgpt, call_openai_chat_api, h1, h2]
  · constructor
    · simp [call_openai_chat_api, h1]
    · simp [send_message_to_chatgpt, call_openai_chat_api, h1]

/-- Claim C10: when the endpoint fails on all attempts,
    send_message_to_chatgpt leaves exactly one new entry in the shared
    history, the user turn appended before the remote call; the history is
    not restored, and the error reaches the caller. -/
theorem c10_partial_append (messages : List Msg) (m : String) (api : ApiOracle)
    (h1 : api 1 = Except.error ()) (h2 : api 2 = Except.error ())
    (h3 : api 3 = Except.error ()) :
    send_message_to_chatgpt messages m api =
      (messages ++ [⟨Role.user, m⟩], Except.error ()) :=
  send_err messages m api (call_fail api h1 h2 h3)

/-- Witness for C10 at a concrete always-failing endpoint. -/
theorem c10_partial_append_witness :
    send_message_to_chatgpt [] "x" failApi =
      (([] : List Msg) ++ [⟨Role.user, "x"⟩], Except.error ()) :=
  c10_partial_append [] "x" failApi rfl rfl rfl

/-- Claim C5: on a scheduler tick whose reply carries the marker phrase
    "nothing to do now" in any case, exactly the two most recently
    appended entries (the marker turn and its reply) are removed, the
    earlier history is unchanged and nothing is delivered; on a tick whose
    reply lacks the phrase, the reply is delivered and nothing is
    removed. -/
theorem c5_filler_suppression (messages : List Msg) (t : String) (api : ApiOracle)
    (r : String) (hok : (call_openai_chat_api api).2 = Except.ok r) :
    (containsMarker r = true → periodicTick messages t api = (messages, []))
    ∧ (containsMarker r = false →
        periodicTick messages t api =
          (messages ++ [⟨Role.user, "SCHEDULER: " ++ t⟩, ⟨Role.system, r⟩], [r])) := by
  have hs := send_ok messages ("SCHEDULER: " ++ t) api r hok
  unfold periodicTick
  rw [hs]
  constructor
  · intro hm
    simp [hm, retract_two]
  · intro hm
    simp [hm]

/-- Witness for C5: a concrete marker reply leaves the history exactly as
    it was and delivers nothing. -/
theorem c5_filler_suppression_witness :
    periodicTick [⟨Role.user, "seed"⟩] "01/01/2024 00:00:00" (okApi "NOTHING to do now.") =
      ([⟨Role.user, "seed"⟩], []) :=
  (c5_filler_suppression [⟨Role.user, "seed"⟩] "01/01/2024 00:00:00"
    (okApi "NOTHING to do now.") "NOTHING to do now." rfl).1 rfl

/-- Claim C2 (amended): on the first readiness signal the recipient
    receives, before the periodic loop starts, exactly three messages in
    order: the task instruction embedded in the fixed wrapper
    (not verbatim), the generating notice, and the model reply to the
    first turn, provided the reply is within the length ceiling. -/
theorem c2_amended (task loop_prompt : String) (messages : List Msg)
    (api1 api2 : ApiOracle) (r : String)
    (hok : (call_openai_chat_api api1).2 = Except.ok r)
    (hshort : r.length ≤ MAX_MESSAGE_LENGTH) :
    (handshake task loop_prompt messages api1 api2).2 =
      ["Your initial instruction to ChatGPT: ```" ++ task ++ "```",
       "ChatGPT is now generating the plan for you...", r] := by
  have hs := send_ok messages task api1 r hok
  unfold handshake
  rw [hs]
  have hnot : ¬ (r.length > MAX_MESSAGE_LENGTH) := by omega
  simp [hnot]

/-- Witness for C2 at the spec handshake example. -/
theorem c2_amended_witness :
    (handshake "Plan my day" "Remind me hourly" [] (okApi "ok plan") (okApi "ok plan")).2 =
      ["Your initial instruction to ChatGPT: ```Plan my day```",
       "ChatGPT is now generating the plan for you...", "ok plan"] :=
  c2_amended "Plan my day" "Remind me hourly" [] (okApi "ok plan") (okApi "ok plan")
    "ok plan" rfl (by decide)

/-- Counterexample to C2 as stated: on the spec handshake input the first
    delivered message is the wrapped instruction, not the verbatim task
    text "Plan my day". -/
theorem c2_counterexample :
    (handshake "Plan my day" "Remind me hourly" [] (okApi "ok plan") (okApi "ok plan")).2.head? =
      some ("Your initial instruction to ChatGPT: ```Plan my day```")
    ∧ "Your initial instruction to ChatGPT: ```Plan my day```" ≠ "Plan my day" := by
  constructor
  · rfl
  · decide

lemma joinChars_singleton (w : List Char) : joinChars [w] = w := rfl

lemma joinChars_cons (w : List Char) (ws : List (List Char)) (h : ws ≠ []) :
    joinChars (w :: ws) = w ++ sp :: joinChars ws := by
  cases ws with
  | nil => exact absurd rfl h
  | cons x t => rfl

lemma joinChars_ne_nil (ws : List (List Char)) (h : ws ≠ []) (hw : ∀ w ∈ ws, w ≠ []) :
    joinChars ws ≠ [] := by
  cases ws with
  | nil => exact absurd rfl h
  | cons x t =>
    cases t with
    | nil => exact hw x (by simp)
    | cons y t2 =>
      rw [joinChars_cons x (y :: t2) (by simp)]
      simp

lemma joinChars_append (a b : List (List Char)) (ha : a ≠ []) (hb : b ≠ []) :
    joinChars (a ++ b) = joinChars a ++ sp :: joinChars b := by
  induction a with
  | nil => exact absurd rfl ha
  | cons x t ih =>
    cases t with
    | nil =>
      rw [List.singleton_append, joinChars_cons x b hb, joinChars_singleton]
    | cons y t2 =>
      have h1 : joinChars ((x :: y :: t2) ++ b) = x ++ sp :: joinChars ((y :: t2) ++ b) := by
        rw [List.cons_append]
        exact joinChars_cons x ((y :: t2) ++ b) (by simp)
      rw [h1, ih (by simp), joinChars_cons x (y :: t2) (by simp)]
      simp

lemma splitSp_no_sp (w : List Char) (hw : ∀ c ∈ w, c ≠ sp) : splitSp w = [w] := by
  induction w with
  | nil => rfl
  | cons c cs ih =>
    have hc : c ≠ sp := hw c (by simp)
    have ih2 := ih (fun x hx => hw x (by simp [hx]))
    simp only [splitSp]
    rw [if_neg hc, ih2]

lemma splitSp_append_sp (w t : List Char) (hw : ∀ c ∈ w, c ≠ sp) :
    splitSp (w ++ sp :: t) = w :: splitSp t := by
  induction w with
  | nil => simp [splitSp]
  | cons c cs ih =>
    have hc : c ≠ sp := hw c (by simp)
    have ih2 := ih (fun x hx => hw x (by simp [hx]))
    rw [List.cons_append]
    simp only [splitSp]
    rw [if_neg hc, ih2]

lemma splitSp_joinChars (ws : List (List Char)) (h : ws ≠ [])
    (hw : ∀ w ∈ ws, ∀ c ∈ w, c ≠ sp) : splitSp (joinChars ws) = ws := by
  induction ws with
  | nil => exact absurd rfl h
  | cons x t ih =>
    cases t with
    | nil =>
      rw [joinChars_singleton]
      exact splitSp_no_sp x (hw x (by simp))
    | cons y t2 =>
      rw [joinChars_cons x (y :: t2) (by simp)]
      rw [splitSp_append_sp x (joinChars (y :: t2)) (hw x (by simp))]
      rw [ih (by simp) (fun w hwm => hw w (by simp [hwm]))]

lemma dropWhile_id_of_head (p : Char → Bool) (l : List Char)
    (h : ∀ c, l.head? = some c → p c = false) : l.dropWhile p = l := by
  cases l with
  | nil => rfl
  | cons a t =>
    rw [List.dropWhile_cons, h a rfl]
    simp

lemma stripChars_id (l : List Char)
    (hh : ∀ c, l.head? = some c → pyIsSpace c = false)
    (hl : ∀ c, l.getLast? = some c → pyIsSpace c = false) : stripChars l = l := by
  unfold stripChars
  rw [dropWhile_id_of_head _ l hh]
  rw [dropWhile_id_of_head _ l.reverse ?hr]
  · exact List.reverse_reverse l
  case hr =>
    intro c hc
    rw [List.head?_reverse] at hc
    exact hl c hc

lemma stripChars_sp (l : List Char) : stripChars (sp :: l) = stripChars l := by
  unfold stripChars
  rw [List.dropWhile_cons, if_pos (by decide)]

lemma head?_joinChars (w : List Char) (ws : List (List Char)) (hw : w ≠ []) :
    (joinChars (w :: ws)).head? = w.head? := by
  cases ws with
  | nil => rfl
  | cons y t =>
    rw [joinChars_cons w (y :: t) (by simp)]
    cases w with
    | nil => exact absurd rfl hw
    | cons c cs => rfl

lemma mem_of_getLast?_eq : ∀ (l : List Char) (c : Char), l.getLast? = some c → c ∈ l
  | [], _, h => by simp at h
  | [a], c, h => by
      simp at h
      simp [h]
  | a :: b :: t, c, h => by
      rw [List.getLast?_cons_cons] at h
      have := mem_of_getLast?_eq (b :: t) c h
      exact List.mem_cons_of_mem a this

lemma getLast?_append_right (l1 l2 : List Char) (h : l2 ≠ []) :
    (l1 ++ l2).getLast? = l2.getLast? := by
  rw [List.getLast?_append]
  rcases hx : l2.getLast? with _ | d
  · exact absurd (List.getLast?_eq_none_iff.mp hx) h
  · rfl

lemma getLast?_cons_of_ne_nil (a : Char) (l : List Char) (h : l ≠ []) :
    (a :: l).getLast? = l.getLast? := by
  cases l with
  | nil => exact absurd rfl h
  | cons b t => exact List.getLast?_cons_cons

lemma getLast?_joinChars_mem :
    ∀ (ws : List (List Char)), (∀ w ∈ ws, w ≠ []) →
      ∀ c, (joinChars ws).getLast? = some c → ∃ w ∈ ws, w.getLast? = some c
  | [], _, c, hc => by simp [joinChars] at hc
  | [w], _, c, hc => ⟨w, by simp, hc⟩
  | w :: x :: t, hw, c, hc => by
      rw [joinChars_cons w (x :: t) (by simp)] at hc
      have hne : joinChars (x :: t) ≠ [] :=
        joinChars_ne_nil (x :: t) (by simp) (fun y hy => hw y (by simp [hy]))
      rw [getLast?_append_right w _ (by simp), getLast?_cons_of_ne_nil sp _ hne] at hc
      obtain ⟨y, hy, hyc⟩ := getLast?_joinChars_mem (x :: t) (fun y hy => hw y (by simp [hy])) c hc
      exact ⟨y, by simp [hy], hyc⟩

lemma joinChars_head_no_ws (ws : List (List Char)) (h : ws ≠ [])
    (hg : ∀ w ∈ ws, w ≠ [] ∧ ∀ c ∈ w, pyIsSpace c = false) :
    ∀ c, (joinChars ws).head? = some c → pyIsSpace c = false := by
  cases ws with
  | nil => exact absurd rfl h
  | cons w t =>
    intro c hc
    rw [head?_joinChars w t (hg w (by simp)).1] at hc
    cases w with
    | nil => exact absurd rfl (hg [] (by simp)).1
    | cons a as =>
      simp at hc
      exact (hg (a :: as) (by simp)).2 c (by simp [hc])

lemma joinChars_last_no_ws (ws : List (List Char)) (h : ws ≠ [])
    (hg : ∀ w ∈ ws, w ≠ [] ∧ ∀ c ∈ w, pyIsSpace c = false) :
    ∀ c, (joinChars ws).getLast? = some c → pyIsSpace c = false := by
  intro c hc
  obtain ⟨w, hw, hwc⟩ := getLast?_joinChars_mem ws (fun w hw => (hg w hw).1) c hc
  exact (hg w hw).2 c (mem_of_getLast?_eq w c hwc)

lemma stripChars_pad_joinChars (c : List (List Char)) (pad : List Char) (hc : c ≠ [])
    (hg : ∀ w ∈ c, w ≠ [] ∧ ∀ ch ∈ w, pyIsSpace ch = false)
    (hpad : pad = [] ∨ pad = [sp]) :
    stripChars (pad ++ joinChars c) = joinChars c := by
  have hid : stripChars (joinChars c) = joinChars c :=
    stripChars_id _ (joinChars_head_no_ws c hc hg) (joinChars_last_no_ws c hc hg)
  rcases hpad with hp | hp
  · rw [hp, List.nil_append, hid]
  · rw [hp, List.singleton_append, stripChars_sp, hid]


lemma chunkFold_spec (maxL : Nat) :
    ∀ (rs : List (List Char)) (res c : List (List Char)) (cur pad : List Char),
      cur = pad ++ joinChars c →
      (∀ w ∈ rs, (w ≠ [] ∧ ∀ ch ∈ w, pyIsSpace ch = false) ∧ w.length + 1 ≤ maxL) →
      c ≠ [] →
      (∀ w ∈ c, w ≠ [] ∧ ∀ ch ∈ w, pyIsSpace ch = false) →
      (pad = [] ∨ pad = [sp]) →
      cur.length ≤ maxL →
      ∃ segs : List (List Char),
        slsFinish (List.foldl (chunkStep maxL) (res, cur) rs) = res ++ segs
        ∧ joinChars segs = joinChars (c ++ rs)
        ∧ ∀ s ∈ segs, s.length ≤ maxL := by
  intro rs
  induction rs with
  | nil =>
    intro res c cur pad hcur hrs hc hcg hpad hlen
    refine ⟨[joinChars c], ?_, by simp [joinChars_singleton], ?_⟩
    · rw [List.foldl_nil]
      have hne : cur ≠ [] := by
        rw [hcur]
        intro hx
        exact joinChars_ne_nil c hc (fun w hw => (hcg w hw).1) (List.append_eq_nil.mp hx).2
      show (if cur = [] then res else res ++ [stripChars cur]) = res ++ [joinChars c]
      rw [if_neg hne, hcur, stripChars_pad_joinChars c pad hc hcg hpad]
    · intro s hs
      simp at hs
      subst hs
      have hle : (joinChars c).length ≤ cur.length := by
        rw [hcur]
        simp
      omega
  | cons w rs2 ih =>
    intro res c cur pad hcur hrs hc hcg hpad hlen
    rw [List.foldl_cons]
    have hwg := (hrs w (by simp)).1
    have hwl := (hrs w (by simp)).2
    have hrs2 : ∀ x ∈ rs2, (x ≠ [] ∧ ∀ ch ∈ x, pyIsSpace ch = false) ∧ x.length + 1 ≤ maxL :=
      fun x hx => hrs x (by simp [hx])
    by_cases hif : (cur ++ sp :: w).length ≤ maxL
    · have hstep : chunkStep maxL (res, cur) w = (res, cur ++ sp :: w) := by
        show (if (cur ++ sp :: w).length ≤ maxL
              then (res, cur ++ sp :: w) else (res ++ [stripChars cur], w)) =
            (res, cur ++ sp :: w)
        rw [if_pos hif]
      rw [hstep]
      have hcur2 : cur ++ sp :: w = pad ++ joinChars (c ++ [w]) := by
        rw [joinChars_append c [w] hc (by simp), joinChars_singleton, hcur]
        simp [List.append_assoc]
      have hcg2 : ∀ x ∈ c ++ [w], x ≠ [] ∧ ∀ ch ∈ x, pyIsSpace ch = false := by
        intro x hx
        rcases List.mem_append.mp hx with hx2 | hx2
        · exact hcg x hx2
        · simp at hx2
          subst hx2
          exact hwg
      obtain ⟨segs, h1, h2, h3⟩ :=
        ih res (c ++ [w]) (cur ++ sp :: w) pad hcur2 hrs2 (by simp) hcg2 hpad hif
      refine ⟨segs, h1, ?_, h3⟩
      rw [h2]
      congr 1
      simp
    · have hstep : chunkStep maxL (res, cur) w = (res ++ [stripChars cur], w) := by
        show (if (cur ++ sp :: w).length ≤ maxL
              then (res, cur ++ sp :: w) else (res ++ [stripChars cur], w)) =
            (res ++ [stripChars cur], w)
        rw [if_neg hif]
      rw [hstep]
      have hscur : stripChars cur = joinChars c := by
        rw [hcur]
        exact stripChars_pad_joinChars c pad hc hcg hpad
      have hwg2 : ∀ x ∈ [w], x ≠ [] ∧ ∀ ch ∈ x, pyIsSpace ch = false := by
        intro x hx
        simp at hx
        subst hx
        exact hwg
      obtain ⟨segs, h1, h2, h3⟩ :=
        ih (res ++ [stripChars cur]) [w] w [] (by rw [joinChars_singleton, List.nil_append])
          hrs2 (by simp) hwg2 (Or.inl rfl) (by omega)
      rw [List.singleton_append] at h2
      have hsegs_ne : segs ≠ [] := by
        intro hx
        rw [hx] at h2
        have hjoin_ne : joinChars (w :: rs2) ≠ [] := by
          apply joinChars_ne_nil _ (by simp)
          intro x hx2
          rcases List.mem_cons.mp hx2 with hx3 | hx3
          · subst hx3
            exact hwg.1
          · exact ((hrs2 x hx3).1).1
        exact hjoin_ne h2.symm
      refine ⟨joinChars c :: segs, ?_, ?_, ?_⟩
      · rw [h1, hscur]
        simp
      · rw [joinChars_cons (joinChars c) segs hsegs_ne, h2,
          joinChars_append c (w :: rs2) hc (by simp)]
      · intro s hs
        rcases List.mem_cons.mp hs with hs2 | hs2
        · subst hs2
          have hle : (joinChars c).length ≤ cur.length := by
            rw [hcur]
            simp
          omega
        · exact h3 s hs2

lemma slsCore_spec (ws : List (List Char)) (maxL : Nat) (hne : ws ≠ [])
    (hg : ∀ w ∈ ws, w ≠ [] ∧ ∀ ch ∈ w, pyIsSpace ch = false)
    (hlen : ∀ w ∈ ws, w.length + 1 ≤ maxL) :
    joinChars (slsCore (joinChars ws) maxL) = joinChars ws
    ∧ ∀ s ∈ slsCore (joinChars ws) maxL, s.length ≤ maxL := by
  have hnosp : ∀ w ∈ ws, ∀ c ∈ w, c ≠ sp := by
    intro w hw c hc he
    have hws := (hg w hw).2 c hc
    rw [he] at hws
    exact absurd hws (by decide)
  cases ws with
  | nil => exact absurd rfl hne
  | cons w1 rest =>
    unfold slsCore
    rw [splitSp_joinChars (w1 :: rest) (by simp) hnosp, List.foldl_cons]
    have hstep : chunkStep maxL ([], []) w1 = ([], [] ++ sp :: w1) := by
      show (if (([] : List Char) ++ sp :: w1).length ≤ maxL
            then (([] : List (List Char)), [] ++ sp :: w1)
            else ([stripChars []], w1)) = (([] : List (List Char)), [] ++ sp :: w1)
      rw [if_pos (by simp; have := hlen w1 (by simp); omega)]
    rw [hstep]
    have hcur : ([] : List Char) ++ sp :: w1 = [sp] ++ joinChars [w1] := by
      rw [joinChars_singleton, List.nil_append, List.singleton_append]
    have hg1 : ∀ x ∈ [w1], x ≠ [] ∧ ∀ ch ∈ x, pyIsSpace ch = false := by
      intro x hx
      simp at hx
      rw [hx]
      exact hg w1 (by simp)
    have hrest : ∀ x ∈ rest, (x ≠ [] ∧ ∀ ch ∈ x, pyIsSpace ch = false) ∧ x.length + 1 ≤ maxL :=
      fun x hx => ⟨hg x (by simp [hx]), hlen x (by simp [hx])⟩
    obtain ⟨segs, h1, h2, h3⟩ :=
      chunkFold_spec maxL rest [] [w1] ([] ++ sp :: w1) [sp] hcur hrest (by simp) hg1
        (Or.inr rfl) (by simp; have := hlen w1 (by simp); omega)
    rw [List.singleton_append] at h2
    rw [h1, List.nil_append]
    exact ⟨h2, h3⟩


lemma data_mk (l : List Char) : (String.mk l).data = l := rfl

lemma split_long_string_spec (ws : List String) (maxL : Nat) (hne : ws ≠ [])
    (hg : ∀ w ∈ ws, w ≠ "" ∧ ∀ c ∈ w.data, pyIsSpace c = false)
    (hlen : ∀ w ∈ ws, w.length + 1 ≤ maxL) :
    joinSpace (split_long_string (joinSpace ws) maxL) = joinSpace ws
    ∧ ∀ s ∈ split_long_string (joinSpace ws) maxL, s.length ≤ maxL := by
  have hg2 : ∀ l ∈ ws.map String.data, l ≠ [] ∧ ∀ ch ∈ l, pyIsSpace ch = false := by
    intro l hl
    obtain ⟨w, hw, rfl⟩ := List.mem_map.mp hl
    refine ⟨?_, (hg w hw).2⟩
    intro hnil
    exact (hg w hw).1 (String.ext hnil)
  have hlen2 : ∀ l ∈ ws.map String.data, l.length + 1 ≤ maxL := by
    intro l hl
    obtain ⟨w, hw, rfl⟩ := List.mem_map.mp hl
    exact hlen w hw
  have hne2 : ws.map String.data ≠ [] := by
    simpa using hne
  obtain ⟨hj, hsl⟩ := slsCore_spec (ws.map String.data) maxL hne2 hg2 hlen2
  constructor
  · unfold split_long_string joinSpace
    congr 1
    rw [List.map_map]
    have hcomp : (String.data ∘ String.mk) = id := rfl
    rw [hcomp, List.map_id]
    exact hj
  · intro s hs
    unfold split_long_string at hs
    obtain ⟨l, hl2, rfl⟩ := List.mem_map.mp hs
    exact hsl l hl2

lemma splitSp_ne_nil : ∀ cs : List Char, splitSp cs ≠ [] := by
  intro cs
  cases cs with
  | nil => simp [splitSp]
  | cons c cs =>
    unfold splitSp
    by_cases h : c = sp
    · simp [h]
    · rw [if_neg h]
      rcases hs : splitSp cs with _ | ⟨w, ws⟩
      · simp
      · simp

lemma chunkStep_progress (maxL : Nat) (acc : List (List Char) × List Char) (w : List Char) :
    (chunkStep maxL acc w).1 ≠ [] ∨ (chunkStep maxL acc w).2 ≠ [] := by
  unfold chunkStep
  by_cases h : (acc.2 ++ sp :: w).length ≤ maxL
  · rw [if_pos h]
    right
    simp
  · rw [if_neg h]
    left
    simp

lemma foldl_chunkStep_progress (maxL : Nat) :
    ∀ (ws : List (List Char)) (acc : List (List Char) × List Char), ws ≠ [] →
      (List.foldl (chunkStep maxL) acc ws).1 ≠ [] ∨ (List.foldl (chunkStep maxL) acc ws).2 ≠ []
  | [], _, h => absurd rfl h
  | [w], acc, _ => by
      rw [List.foldl_cons, List.foldl_nil]
      exact chunkStep_progress maxL acc w
  | w :: x :: t, acc, _ => by
      rw [List.foldl_cons]
      exact foldl_chunkStep_progress maxL (x :: t) (chunkStep maxL acc w) (by simp)

lemma slsCore_ne_nil (cs : List Char) (maxL : Nat) : slsCore cs maxL ≠ [] := by
  unfold slsCore slsFinish
  rcases foldl_chunkStep_progress maxL (splitSp cs) ([], []) (splitSp_ne_nil cs) with h | h
  · by_cases h2 : (List.foldl (chunkStep maxL) ([], []) (splitSp cs)).2 = []
    · rw [if_pos h2]
      exact h
    · rw [if_neg h2]
      simp
  · rw [if_neg h]
    simp

/-- Counterexample to C8 as stated: on the empty input string
    split_long_string returns one segment, the empty string, not zero
    segments. -/
theorem c8_counterexample :
    split_long_string "" 2000 = [""] ∧ ([""] : List String) ≠ [] := by
  constructor
  · rfl
  · decide

/-- Claim C8 (amended): split_long_string is total and returns at least
    one segment for every input, including the empty input, for which the
    single returned segment is the empty string. -/
theorem c8_amended :
    (∀ (text : String) (maxL : Nat), split_long_string text maxL ≠ [])
    ∧ split_long_string "" 2000 = [""] := by
  constructor
  · intro text maxL
    unfold split_long_string
    simp only [ne_eq, List.map_eq_nil_iff]
    exact slsCore_ne_nil text.data maxL
  · rfl

/-- Claim C1 fails on the code: at 04:15:00 with cadence 3 the computed
    delay is 9900000000 microseconds, so the tick lands on the hour
    boundary 07:00 whose hour of day, 7, is not divisible by the
    cadence 3 (the intended aligned tick would be 06:00). -/
theorem c1_tick_misaligned :
    seconds_till_next_run_us 15300000000 3 = 9900000000
    ∧ tickInstantUs 15300000000 3 % 3600000000 = 0
    ∧ tickHourOfDay 15300000000 3 = 7
    ∧ ¬ (3 ∣ tickHourOfDay 15300000000 3) := by
  refine ⟨by decide, by decide, by decide, ?_⟩
  have h : tickHourOfDay 15300000000 3 = 7 := by decide
  rw [h]
  decide

/-- Claim C9: for cadence 1 the computed delay equals the time to the
    next wall-clock hour boundary and lies between 0 and 3600 seconds
    (stated in microseconds); for cadence 3 at 02:15:00 the delay is
    2700 seconds and the tick lands at 03:00:00. -/
theorem c9_cadence_one_alignment :
    (∀ n : Nat,
        seconds_till_next_run_us n 1 = (next_hour_boundary_us n : Int) - (n : Int)
        ∧ 0 ≤ seconds_till_next_run_us n 1
        ∧ seconds_till_next_run_us n 1 ≤ 3600000000)
    ∧ seconds_till_next_run_us 8100000000 3 = 2700000000
    ∧ tickInstantUs 8100000000 3 = 10800000000
    ∧ tickHourOfDay 8100000000 3 = 3 := by
  refine ⟨fun n => ?_, by decide, by decide, by decide⟩
  unfold seconds_till_next_run_us seconds_till_next_hour_us more_hours minute second
    microsecond hour next_hour_boundary_us
  omega


/-- Claim C7 (amended): for a text made of nonempty whitespace-free words
    separated by single spaces and a maxLength at least one more than the
    longest word, joining the segments of split_long_string with single
    spaces reproduces the text, and every segment is at most maxLength
    long. -/
theorem c7_amended (ws : List String) (maxL : Nat) (hne : ws ≠ [])
    (hg : ∀ w ∈ ws, w ≠ "" ∧ ∀ c ∈ w.data, pyIsSpace c = false)
    (hlen : ∀ w ∈ ws, w.length + 1 ≤ maxL) :
    joinSpace (split_long_string (joinSpace ws) maxL) = joinSpace ws
    ∧ ∀ s ∈ split_long_string (joinSpace ws) maxL, s.length ≤ maxL :=
  split_long_string_spec ws maxL hne hg hlen

/-- Witness for C7 at a concrete word list and bound. -/
theorem c7_amended_witness :
    joinSpace (split_long_string (joinSpace ["ab", "cd"]) 3) = joinSpace ["ab", "cd"]
    ∧ ∀ s ∈ split_long_string (joinSpace ["ab", "cd"]) 3, s.length ≤ 3 :=
  c7_amended ["ab", "cd"] 3 (by decide) (by decide) (by decide)

/-- Counterexample to C7 as stated: a doubled space survives inside a
    segment instead of being normalized, and with maxLength equal to the
    longest word length the join acquires a spurious leading space. -/
theorem c7_counterexample :
    joinSpace (split_long_string "a  b" 2000) = "a  b"
    ∧ "a  b" ≠ "a b"
    ∧ joinSpace (split_long_string "ab" 2) = " ab"
    ∧ " ab" ≠ "ab" := by
  refine ⟨by decide, by decide, by decide, by decide⟩

lemma map_data_longWords : longWords.map String.data = List.replicate 501 ("abc".data) := by
  unfold longWords
  rw [List.map_replicate]

lemma joinChars_replicate_length (w : List Char) :
    ∀ k : Nat, (joinChars (List.replicate (k + 1) w)).length = (k + 1) * w.length + k := by
  intro k
  induction k with
  | zero => simp [List.replicate_succ, joinChars_singleton]
  | succ k ih =>
    rw [List.replicate_succ]
    rw [joinChars_cons w _ (by simp [List.replicate_succ])]
    rw [List.length_append]
    simp only [List.length_cons, ih]
    ring

lemma longReply_length : longReply.length = 2003 := by
  show (joinChars (longWords.map String.data)).length = 2003
  rw [map_data_longWords]
  have h := joinChars_replicate_length ("abc".data) 500
  have h3 : ("abc".data).length = 3 := rfl
  rw [h3] at h
  have h501 : (500 : Nat) + 1 = 501 := rfl
  rw [h501] at h
  rw [h]

lemma occursIn_ne_head (p : Char) (ps : List Char) :
    ∀ hay : List Char, (∀ c ∈ hay, c ≠ p) → occursIn (p :: ps) hay = false := by
  intro hay
  induction hay with
  | nil => intro _; rfl
  | cons c cs ih =>
    intro h
    show (hasLead (c :: cs) (p :: ps) || occursIn (p :: ps) cs) = false
    rw [ih (fun x hx => h x (by simp [hx]))]
    show (((c == p) && hasLead cs ps) || false) = false
    rw [Bool.or_false, beq_eq_false_iff_ne.mpr (h c (by simp)), Bool.false_and]

lemma mem_joinChars (ch : Char) :
    ∀ ws : List (List Char), ch ∈ joinChars ws → (∃ w ∈ ws, ch ∈ w) ∨ ch = sp := by
  intro ws
  induction ws with
  | nil => intro h; simp [joinChars] at h
  | cons w t ih =>
    intro h
    cases t with
    | nil =>
      left
      exact ⟨w, by simp, h⟩
    | cons y t2 =>
      rw [joinChars_cons w (y :: t2) (by simp)] at h
      rcases List.mem_append.mp h with h2 | h2
      · left
        exact ⟨w, by simp, h2⟩
      · rcases List.mem_cons.mp h2 with h3 | h3
        · right
          exact h3
        · rcases ih h3 with ⟨x, hx, hcx⟩ | h4
          · left
            exact ⟨x, by simp [hx], hcx⟩
          · right
            exact h4

lemma containsMarker_longReply : containsMarker longReply = false := by
  show occursIn ("nothing to do now".data) (pyLower longReply).data = false
  have hpat : "nothing to do now".data = 'n' :: "othing to do now".data := rfl
  rw [hpat]
  apply occursIn_ne_head
  intro c hc
  have hc2 : c ∈ (longReply.data).map Char.toLower := hc
  obtain ⟨c0, hc0, rfl⟩ := List.mem_map.mp hc2
  have hc0b : c0 ∈ joinChars (List.replicate 501 ("abc".data)) := by
    rw [← map_data_longWords]
    exact hc0
  rcases mem_joinChars c0 _ hc0b with ⟨w, hw, hcw⟩ | hsp
  · have hw2 : w = "abc".data := (List.mem_replicate.mp hw).2
    rw [hw2] at hcw
    have habc : "abc".data = [Char.ofNat 97, Char.ofNat 98, Char.ofNat 99] := rfl
    rw [habc] at hcw
    simp at hcw
    rcases hcw with h | h | h
    · rw [h]; decide
    · rw [h]; decide
    · rw [h]; decide
  · rw [hsp]
    decide

/-- Claim C3 fails on the code: a scheduler-tick reply of 501
    space-separated words and 2003 characters is delivered to the user as
    one single message exceeding the 2000-unit ceiling, although it is not
    a single oversized token and split_long_string would have cut it into
    segments within the ceiling. -/
theorem c3_oversized_tick_delivery :
    (periodicTick [] "04/15/2024 07:00:00" (okApi longReply)).2 = [longReply]
    ∧ longReply.length = 2003
    ∧ MAX_MESSAGE_LENGTH < longReply.length
    ∧ ∀ s ∈ split_long_string longReply MAX_MESSAGE_LENGTH, s.length ≤ MAX_MESSAGE_LENGTH := by
  refine ⟨?_, longReply_length, ?_, ?_⟩
  · have hs := send_ok [] ("SCHEDULER: " ++ "04/15/2024 07:00:00") (okApi longReply)
      longReply rfl
    unfold periodicTick
    rw [hs]
    simp [containsMarker_longReply]
  · rw [longReply_length]
    decide
  · have hgw : ∀ w ∈ longWords, w ≠ "" ∧ ∀ c ∈ w.data, pyIsSpace c = false := by
      intro w hw
      have hw2 : w = "abc" := (List.mem_replicate.mp hw).2
      rw [hw2]
      decide
    have hlw : ∀ w ∈ longWords, w.length + 1 ≤ MAX_MESSAGE_LENGTH := by
      intro w hw
      have hw2 : w = "abc" := (List.mem_replicate.mp hw).2
      rw [hw2]
      decide
    have hnw : longWords ≠ [] := by
      unfold longWords
      intro h
      exact absurd ((List.replicate_eq_nil_iff "abc").mp h) (by decide)
    exact (split_long_string_spec longWords MAX_MESSAGE_LENGTH hnw hgw hlw).2

end GptBot
